import Mathlib

/-!
Verification development for the real-time relay / streaming-assembly engine.

The definitions below are a shallow embedding of the repository's code:
* the transcript assembler of the frontend chat interface
  (`handleWSMessage`, `setMessages`, `receiveLoop` in
  `src/frontend/components/action-buttons.tsx`), with the JavaScript
  `Map<string, Message>` modelled as an insertion-ordered association list
  keyed by the message id (JavaScript maps iterate in insertion order and
  `set` on an existing key keeps its position), and
* the `SpeakerOutput` audio playback buffer of the middle tier
  (`_audioQueue`, `EnqueueForPlayback`, `ProcessAudioQueue`,
  `ClearPlayback` in `src/middle-tier`).

JavaScript truthiness of the optional string fields (`message.id`,
`message.greeting`) is modelled explicitly: `undefined` and `""` are falsy.
-/

/-- Message model from `src/frontend/types/chat.ts`.  The `role` is kept as a
raw string because the assembler defensively normalizes unexpected role
values at read time (`setMessages`), so the runtime value space is wider
than the declared TypeScript union. -/
structure Message where
  id : String
  role : String
  content : String
deriving DecidableEq, Repr

/-- Truthiness of an optional string field of a parsed JSON object:
`undefined` and the empty string are falsy in JavaScript. -/
def truthyS (o : Option String) : Bool :=
  match o with
  | none => false
  | some s => !(s == "")

/-- The client wire messages handled by `handleWSMessage`.  The `newId`
arguments model the identifiers the handler generates at runtime
(`status-Date.now()` for the connected case, `userMessage + Math.random()`
for the speech-started case); `unknown` models a structurally valid JSON
object whose `type` is not one of the recognized discriminators (the
`switch` falls through and the frame is dropped). -/
inductive WSMessage where
  | text_delta (id : Option String) (delta : Option String)
  | transcription (id : Option String) (text : Option String)
  | control_connected (greeting : Option String) (newId : String)
  | control_speech_started (newId : String)
  | control_text_done
  | user_message (text : Option String)
  | unknown
deriving DecidableEq, Repr

/-- Client-side assembler state: the insertion-ordered message map, the
`currentUserMessage` ref (held as the id of the message object it points
at), and the audio player's queued-but-unplayed chunks (`Player` is in
`lib/audio.ts`; modelled from the spec as a FIFO of chunks that `play`
appends to and `clear` empties). -/
structure ClientState where
  messageMap : List Message
  currentUserMessage : Option String
  playbackBuffer : List (List Int)
deriving DecidableEq, Repr

/-- Empty assembler state at component mount. -/
def ClientState.start : ClientState :=
  { messageMap := [], currentUserMessage := none, playbackBuffer := [] }

/-- Lookup in the message map: `messageMap.current.get(id)`. -/
def findMsg (m : List Message) (i : String) : Option Message :=
  m.find? (fun e => e.id == i)

/-- JavaScript `Map.set` semantics on the association list: an existing key
is updated in place (keeping its position), a new key is appended. -/
def mapSet (m : List Message) (msg : Message) : List Message :=
  if m.any (fun e => e.id == msg.id) then
    m.map (fun e => if e.id == msg.id then msg else e)
  else
    m ++ [msg]

/-- In-place mutation `existingMessage.content += delta` seen through the
map: the entry with the given id gets the fragment appended. -/
def appendContent (m : List Message) (i : String) (d : String) : List Message :=
  m.map (fun e => if e.id == i then { e with content := e.content ++ d } else e)

/-- In-place mutation `currentUserMessage.current.content = text` seen
through the map: the entry with the given id has its content replaced. -/
def replaceContent (m : List Message) (i : String) (c : String) : List Message :=
  m.map (fun e => if e.id == i then { e with content := c } else e)

/-- Fixed greeting text inserted by the connected case of
`handleWSMessage` (the payload's `greeting` field is not used). -/
def connectedGreeting : String :=
  "You are now connected to the real-time processing server"

/-- Substring test over the underlying character lists, used to model
`msg.content.includes(connectingMarker)`. -/
def isPrefixOfB : List Char → List Char → Bool
  | [], _ => true
  | _ :: _, [] => false
  | a :: as, b :: bs => a == b && isPrefixOfB as bs

/-- Does `l` contain `pat` as a contiguous run? -/
def containsSub (pat : List Char) : List Char → Bool
  | [] => isPrefixOfB pat []
  | c :: rest => isPrefixOfB pat (c :: rest) || containsSub pat rest

/-- `msg.content.includes(connectingMarker)` where the marker is the literal
substring the connected-case cleanup scans for. -/
def containsConnecting (s : String) : Bool :=
  containsSub "Connecting".toList s.toList

/-- Predicate selecting the messages the connected-case cleanup removes:
role `status` and content containing the connecting marker. -/
def isConnectingStatus (e : Message) : Bool :=
  e.role == "status" && containsConnecting e.content

/-- The connected-case cleanup: collect the keys of all status messages
whose content contains the connecting marker, then delete each collected
key from the map (the two-phase `forEach` + `delete` of the source). -/
def removeConnecting (m : List Message) : List Message :=
  let keys := (m.filter isConnectingStatus).map (fun e => e.id)
  keys.foldl (fun acc k => acc.filter (fun e => !(e.id == k))) m

/-- The transcript assembler's event handler, translated case by case from
`handleWSMessage` in `action-buttons.tsx`. -/
def handleWS (s : ClientState) (m : WSMessage) : ClientState :=
  match m with
  | .transcription id text =>
    match s.currentUserMessage with
    | some cur =>
      if truthyS id then
        { s with messageMap := replaceContent s.messageMap cur (text.getD "") }
      else s
    | none => s
  | .text_delta id delta =>
    match id with
    | some i =>
      if i == "" then s
      else
        match findMsg s.messageMap i with
        | some _ =>
          { s with messageMap := appendContent s.messageMap i (delta.getD "") }
        | none =>
          { s with messageMap :=
              mapSet s.messageMap ⟨i, "assistant", delta.getD ""⟩ }
    | none => s
  | .control_connected greeting newId =>
    if truthyS greeting then
      { s with messageMap :=
          removeConnecting (mapSet s.messageMap ⟨newId, "assistant", connectedGreeting⟩) }
    else s
  | .control_speech_started newId =>
    { messageMap := mapSet s.messageMap ⟨newId, "user", "..."⟩,
      currentUserMessage := some newId,
      playbackBuffer := [] }
  | .control_text_done => s
  | .user_message _ => s
  | .unknown => s

/-- Fold a sequence of wire messages through the handler. -/
def runWS (s : ClientState) (es : List WSMessage) : ClientState :=
  es.foldl handleWS s

/-- Read-time role normalization of `setMessages`: any message whose role is
neither `user` nor `status` is presented with role `assistant`. -/
def setMessagesView (m : List Message) : List Message :=
  m.map (fun e =>
    if !(e.role == "user") && !(e.role == "status") then
      { e with role := "assistant" }
    else e)

/-- The assembler's snapshot: the ordered message list the UI renders,
produced by `setMessages` from the message map. -/
def snapshot (s : ClientState) : List Message :=
  setMessagesView s.messageMap

/-- Key sequence of the message map. -/
def ids (m : List Message) : List String :=
  m.map (fun e => e.id)

/-- A raw WebSocket frame as seen by `receiveLoop`: a text frame carries
either a recognized parse (`some`) or is structurally invalid JSON
(`none`, i.e. `JSON.parse` throws); a binary frame carries audio samples. -/
inductive Frame where
  | text (payload : Option WSMessage)
  | binary (data : List Int)
deriving DecidableEq, Repr

/-- One iteration of `receiveLoop`: invalid JSON is caught, logged and
dropped; a parsed message goes to the handler; binary data is handed to
the audio player. -/
def receiveStep (s : ClientState) (f : Frame) : ClientState :=
  match f with
  | .text none => s
  | .text (some m) => handleWS s m
  | .binary d => { s with playbackBuffer := s.playbackBuffer ++ [d] }

/-- The receive pump over a finite frame sequence. -/
def receiveLoop (s : ClientState) (fs : List Frame) : ClientState :=
  fs.foldl receiveStep s

/-- A frame the pump drops without effect: structurally invalid JSON or a
JSON object with an unrecognized `type`. -/
def malformedOrUnknown (f : Frame) : Bool :=
  match f with
  | .text none => true
  | .text (some .unknown) => true
  | _ => false

/-- Concatenation of delta fragments in arrival order, a missing `delta`
field contributing the empty string (`message.delta || ''`). -/
def concatFrags : List (Option String) → String
  | [] => ""
  | d :: ds => d.getD "" ++ concatFrags ds

/-- Events other than the connected control event (whose handler can remove
messages). -/
def notConnected (e : WSMessage) : Bool :=
  match e with
  | .control_connected _ _ => false
  | _ => true

/-- The key sequence a single event makes the map observe: a truthy-id
delta or a speech-started event registers its id on first observation,
everything else leaves the key order alone. -/
def obsStep (acc : List String) (e : WSMessage) : List String :=
  match e with
  | .text_delta (some i) _ =>
    if i == "" then acc else if i ∈ acc then acc else acc ++ [i]
  | .control_speech_started i =>
    if i ∈ acc then acc else acc ++ [i]
  | _ => acc

/-- Middle-tier `SpeakerOutput` state: the concurrent chunk queue
(`_audioQueue`), the device-side wave buffer (`_waveProvider`), and the
samples already handed to the output device. -/
structure SpeakerOutput where
  audioQueue : List (List Int)
  waveBuffer : List (List Int)
  played : List (List Int)
deriving DecidableEq, Repr

/-- Freshly constructed `SpeakerOutput`. -/
def SpeakerOutput.start : SpeakerOutput :=
  { audioQueue := [], waveBuffer := [], played := [] }

/-- `EnqueueForPlayback`: append the chunk to the tail of `_audioQueue`. -/
def SpeakerOutput.enqueueForPlayback (s : SpeakerOutput) (c : List Int) : SpeakerOutput :=
  { s with audioQueue := s.audioQueue ++ [c] }

/-- One iteration of the `ProcessAudioQueue` background loop: dequeue a
chunk if available and add its samples to the wave provider, otherwise
idle. -/
def SpeakerOutput.processAudioStep (s : SpeakerOutput) : SpeakerOutput :=
  match s.audioQueue with
  | [] => s
  | c :: rest => { s with audioQueue := rest, waveBuffer := s.waveBuffer ++ [c] }

/-- `ClearPlayback`: the source calls `_waveProvider.ClearBuffer()` only —
the wave provider's buffered samples are discarded, `_audioQueue` is not
touched. -/
def SpeakerOutput.clearPlayback (s : SpeakerOutput) : SpeakerOutput :=
  { s with waveBuffer := [] }

/-- One step of the output device (`WaveOutEvent`) consuming the wave
provider front-to-back and emitting it on the physical device. -/
def SpeakerOutput.deviceStep (s : SpeakerOutput) : SpeakerOutput :=
  match s.waveBuffer with
  | [] => s
  | c :: rest => { s with waveBuffer := rest, played := s.played ++ [c] }

example :
    runWS ClientState.start
      [.text_delta (some "a") (some "he"), .text_delta (some "a") (some "llo")]
      = { messageMap := [⟨"a", "assistant", "hello"⟩],
          currentUserMessage := none, playbackBuffer := [] } := by decide

example :
    ((((SpeakerOutput.start.enqueueForPlayback [1]).clearPlayback).processAudioStep).deviceStep).played
      = [[1]] := by decide

/-! Helper lemmas about the map operations. -/

theorem ids_map_preserve (m : List Message) (f : Message → Message)
    (h : ∀ e, (f e).id = e.id) : ids (m.map f) = ids m := by
  simp only [ids, List.map_map]
  apply List.map_congr_left
  intro a _
  exact h a

theorem ids_replaceContent (m : List Message) (i c : String) :
    ids (replaceContent m i c) = ids m := by
  apply ids_map_preserve
  intro e
  by_cases h : (e.id == i) = true <;> simp [h]

theorem ids_appendContent (m : List Message) (i d : String) :
    ids (appendContent m i d) = ids m := by
  apply ids_map_preserve
  intro e
  by_cases h : (e.id == i) = true <;> simp [h]

theorem ids_setMessagesView (m : List Message) :
    ids (setMessagesView m) = ids m := by
  apply ids_map_preserve
  intro e
  by_cases h : (!(e.role == "user") && !(e.role == "status")) = true <;> simp [h]

theorem mem_ids_of_any (m : List Message) (i : String)
    (h : m.any (fun e => e.id == i) = true) : i ∈ ids m := by
  rcases List.any_eq_true.mp h with ⟨e, he, hbe⟩
  exact List.mem_map.mpr ⟨e, he, beq_iff_eq.mp hbe⟩

theorem any_of_mem_ids (m : List Message) (i : String)
    (h : i ∈ ids m) : m.any (fun e => e.id == i) = true := by
  rcases List.mem_map.mp h with ⟨e, he, hbe⟩
  exact List.any_eq_true.mpr ⟨e, he, beq_iff_eq.mpr hbe⟩

theorem ids_mapSet (m : List Message) (msg : Message) :
    ids (mapSet m msg) = if msg.id ∈ ids m then ids m else ids m ++ [msg.id] := by
  unfold mapSet
  by_cases h : m.any (fun e => e.id == msg.id) = true
  · rw [if_pos h, if_pos (mem_ids_of_any m msg.id h)]
    apply ids_map_preserve
    intro e
    by_cases he : (e.id == msg.id) = true
    · simp [he, (beq_iff_eq.mp he).symm]
    · simp [he]
  · rw [if_neg h, if_neg (fun hc => h (any_of_mem_ids m msg.id hc))]
    simp [ids]

theorem findMsg_eq_none_iff (m : List Message) (i : String) :
    findMsg m i = none ↔ i ∉ ids m := by
  simp only [findMsg, List.find?_eq_none, ids, List.mem_map]
  constructor
  · rintro h ⟨e, he, hei⟩
    have hne := h e he
    simp only [beq_iff_eq] at hne
    exact hne hei
  · intro h e he
    simp only [beq_iff_eq]
    exact fun hc => h ⟨e, he, hc⟩

theorem mem_ids_of_findMsg_some (m : List Message) (i : String) (e : Message)
    (h : findMsg m i = some e) : i ∈ ids m := by
  have he := List.mem_of_find?_eq_some h
  have hp := List.find?_some h
  exact List.mem_map.mpr ⟨e, he, beq_iff_eq.mp hp⟩

theorem findMsg_appendContent (m : List Message) (i d : String) :
    findMsg (appendContent m i d) i
      = (findMsg m i).map (fun e => { e with content := e.content ++ d }) := by
  induction m with
  | nil => rfl
  | cons e rest ih =>
    simp only [appendContent, List.map_cons, findMsg, List.find?_cons] at *
    by_cases hid : (e.id == i) = true
    · simp [hid]
    · simp only [hid, Bool.false_eq_true, if_neg, cond_false]
      simpa [hid] using ih

theorem findMsg_map_replace (m : List Message) (msg : Message) :
    findMsg (m.map (fun e => if e.id == msg.id then msg else e)) msg.id
      = (findMsg m msg.id).map (fun _ => msg) := by
  induction m with
  | nil => rfl
  | cons e rest ih =>
    simp only [List.map_cons, findMsg, List.find?_cons] at *
    by_cases hid : (e.id == msg.id) = true
    · simp [hid]
    · simp only [hid, Bool.false_eq_true, if_neg, cond_false]
      simpa [hid] using ih

theorem findMsg_mapSet_self (m : List Message) (msg : Message) :
    findMsg (mapSet m msg) msg.id = some msg := by
  unfold mapSet
  by_cases h : m.any (fun e => e.id == msg.id) = true
  · rw [if_pos h, findMsg_map_replace]
    have hs : (findMsg m msg.id).isSome := by
      rcases List.any_eq_true.mp h with ⟨e, he, hbe⟩
      exact List.find?_isSome.mpr ⟨e, he, hbe⟩
    rcases Option.isSome_iff_exists.mp hs with ⟨e, he⟩
    rw [he]
    rfl
  · rw [if_neg h]
    have hn : findMsg m msg.id = none := by
      rw [findMsg_eq_none_iff]
      exact fun hc => h (any_of_mem_ids m msg.id hc)
    simp only [findMsg] at *
    rw [List.find?_append, hn]
    simp

theorem mem_mapSet_id (m : List Message) (msg : Message) (e : Message)
    (he : e ∈ mapSet m msg) (hid : e.id = msg.id) : e = msg := by
  unfold mapSet at he
  by_cases h : m.any (fun x => x.id == msg.id) = true
  · rw [if_pos h] at he
    rcases List.mem_map.mp he with ⟨x, hx, hxe⟩
    by_cases hxid : (x.id == msg.id) = true
    · rw [if_pos hxid] at hxe
      exact hxe.symm
    · rw [if_neg hxid] at hxe
      exact absurd (beq_iff_eq.mpr (hxe ▸ hid)) hxid
  · rw [if_neg h] at he
    rcases List.mem_append.mp he with he | he
    · have hc : m.any (fun x => x.id == msg.id) = true :=
        List.any_eq_true.mpr ⟨e, he, beq_iff_eq.mpr hid⟩
      exact absurd hc h
    · simpa using he

theorem findMsg_filter (m : List Message) (i : String) (q : Message → Bool)
    (h : ∀ e ∈ m, e.id = i → q e = true) :
    findMsg (m.filter q) i = findMsg m i := by
  induction m with
  | nil => rfl
  | cons e rest ih =>
    have hrest : ∀ x ∈ rest, x.id = i → q x = true :=
      fun x hx => h x (List.mem_cons_of_mem _ hx)
    simp only [List.filter_cons]
    by_cases hq : q e = true
    · rw [if_pos hq]
      by_cases hid : (e.id == i) = true
      · simp only [findMsg, List.find?_cons, hid, cond_true]
      · simp only [findMsg, List.find?_cons, hid, cond_false]
        exact ih hrest
    · rw [if_neg hq]
      have hne : (e.id == i) = false := by
        rcases Bool.eq_false_or_eq_true (e.id == i) with hb | hb
        · exact absurd (h e (List.mem_cons_self e rest) (beq_iff_eq.mp hb)) hq
        · exact hb
      conv_rhs => rw [findMsg, List.find?_cons]
      rw [hne]
      exact ih hrest

theorem deleteKeys_eq_filter (keys : List String) (m : List Message) :
    keys.foldl (fun acc k => acc.filter (fun e => !(e.id == k))) m
      = m.filter (fun e => !(keys.any (fun k => e.id == k))) := by
  induction keys generalizing m with
  | nil => simp
  | cons k ks ih =>
    simp only [List.foldl_cons]
    rw [ih, List.filter_filter]
    apply List.filter_congr
    intro e _
    simp only [List.any_cons, Bool.not_or]
    rw [Bool.and_comm]

theorem removeConnecting_eq_deleteFilter (m : List Message) :
    removeConnecting m
      = m.filter (fun e =>
          !(((m.filter isConnectingStatus).map (fun x => x.id)).any
              (fun k => e.id == k))) := by
  unfold removeConnecting
  exact deleteKeys_eq_filter _ m

theorem removeConnecting_sublist (m : List Message) :
    List.Sublist (removeConnecting m) m := by
  rw [removeConnecting_eq_deleteFilter]
  exact List.filter_sublist m

theorem key_mem_iff_pred (m : List Message) (e : Message)
    (hnodup : (ids m).Nodup) (he : e ∈ m) :
    ((m.filter isConnectingStatus).map (fun x => x.id)).any (fun k => e.id == k)
      = isConnectingStatus e := by
  by_cases hp : isConnectingStatus e = true
  · rw [hp]
    apply List.any_eq_true.mpr
    refine ⟨e.id, List.mem_map.mpr ⟨e, List.mem_filter.mpr ⟨he, hp⟩, rfl⟩, ?_⟩
    exact beq_iff_eq.mpr rfl
  · rw [Bool.eq_false_iff.mpr hp]
    apply Bool.eq_false_iff.mpr
    intro hc
    rcases List.any_eq_true.mp hc with ⟨k, hk, hek⟩
    rcases List.mem_map.mp hk with ⟨x, hx, hxk⟩
    rcases List.mem_filter.mp hx with ⟨hxm, hxp⟩
    have hxe : x = e :=
      List.inj_on_of_nodup_map hnodup hxm he (hxk.trans (beq_iff_eq.mp hek).symm)
    exact hp (hxe ▸ hxp)

theorem removeConnecting_eq_filter (m : List Message)
    (hnodup : (ids m).Nodup) :
    removeConnecting m = m.filter (fun e => !(isConnectingStatus e)) := by
  rw [removeConnecting_eq_deleteFilter]
  apply List.filter_congr
  intro e he
  rw [key_mem_iff_pred m e hnodup he]

theorem nodup_obsStep (acc : List String) (e : WSMessage)
    (h : acc.Nodup) : (obsStep acc e).Nodup := by
  cases e with
  | text_delta id delta =>
    cases id with
    | none => exact h
    | some i =>
      simp only [obsStep]
      by_cases hi : (i == "") = true
      · simpa [hi] using h
      · by_cases hm : i ∈ acc
        · simpa [hi, hm] using h
        · simp [hi, hm, List.nodup_append, h]
  | control_speech_started i =>
    simp only [obsStep]
    by_cases hm : i ∈ acc
    · simpa [hm] using h
    · simp [hm, List.nodup_append, h]
  | transcription id text => exact h
  | control_connected g n => exact h
  | control_text_done => exact h
  | user_message t => exact h
  | unknown => exact h

theorem ids_handleWS_notConnected (s : ClientState) (e : WSMessage)
    (h : notConnected e = true) :
    ids (handleWS s e).messageMap = obsStep (ids s.messageMap) e := by
  cases e with
  | transcription id text =>
    simp only [handleWS, obsStep]
    cases s.currentUserMessage with
    | none => rfl
    | some cur =>
      by_cases ht : truthyS id = true
      · simp [ht, ids_replaceContent]
      · simp [ht]
  | text_delta id delta =>
    cases id with
    | none => rfl
    | some i =>
      simp only [handleWS, obsStep]
      by_cases hi : (i == "") = true
      · simp [hi]
      · rw [if_neg hi, if_neg hi]
        cases hf : findMsg s.messageMap i with
        | some msg =>
          have hmem : i ∈ ids s.messageMap := mem_ids_of_findMsg_some _ _ _ hf
          simp [hf, hmem, ids_appendContent]
        | none =>
          simp only [hf, ids_mapSet]
  | control_speech_started newId =>
    simp only [handleWS, obsStep, ids_mapSet]
  | control_connected g n => simp [notConnected] at h
  | control_text_done => rfl
  | user_message t => rfl
  | unknown => rfl

theorem nodup_ids_handleWS (s : ClientState) (e : WSMessage)
    (h : (ids s.messageMap).Nodup) :
    (ids (handleWS s e).messageMap).Nodup := by
  cases e with
  | control_connected g newId =>
    simp only [handleWS]
    by_cases hg : truthyS g = true
    · rw [if_pos hg]
      have h1 : (ids (mapSet s.messageMap ⟨newId, "assistant", connectedGreeting⟩)).Nodup := by
        rw [ids_mapSet]
        by_cases hm : Message.id ⟨newId, "assistant", connectedGreeting⟩ ∈ ids s.messageMap
        · rwa [if_pos hm]
        · rw [if_neg hm]
          simp [List.nodup_append, h, hm]
      have h2 : List.Sublist
          (ids (removeConnecting (mapSet s.messageMap ⟨newId, "assistant", connectedGreeting⟩)))
          (ids (mapSet s.messageMap ⟨newId, "assistant", connectedGreeting⟩)) :=
        (removeConnecting_sublist _).map _
      exact h1.sublist h2
    · rwa [if_neg hg]
  | transcription id text =>
    rw [ids_handleWS_notConnected s (.transcription id text) rfl]
    exact nodup_obsStep _ _ h
  | text_delta id delta =>
    rw [ids_handleWS_notConnected s (.text_delta id delta) rfl]
    exact nodup_obsStep _ _ h
  | control_speech_started newId =>
    rw [ids_handleWS_notConnected s (.control_speech_started newId) rfl]
    exact nodup_obsStep _ _ h
  | control_text_done => exact h
  | user_message t => exact h
  | unknown => exact h

theorem nodup_ids_runWS (es : List WSMessage) (s : ClientState)
    (h : (ids s.messageMap).Nodup) :
    (ids (runWS s es).messageMap).Nodup := by
  induction es generalizing s with
  | nil => exact h
  | cons e rest ih =>
    show (ids (runWS (handleWS s e) rest).messageMap).Nodup
    exact ih _ (nodup_ids_handleWS s e h)

theorem ids_runWS_notConnected (es : List WSMessage) (s : ClientState)
    (h : es.all notConnected = true) :
    ids (runWS s es).messageMap = es.foldl obsStep (ids s.messageMap) := by
  induction es generalizing s with
  | nil => rfl
  | cons e rest ih =>
    simp only [List.all_cons, Bool.and_eq_true] at h
    show ids (runWS (handleWS s e) rest).messageMap = _
    rw [ih _ h.2, ids_handleWS_notConnected s e h.1, List.foldl_cons]

theorem findMsg_runWS_deltas (ds : List (Option String)) (s : ClientState)
    (i : String) (m0 : Message) (hi : (i == "") = false)
    (h : findMsg s.messageMap i = some m0) :
    findMsg (runWS s (ds.map (fun d => WSMessage.text_delta (some i) d))).messageMap i
      = some { m0 with content := m0.content ++ concatFrags ds } := by
  induction ds generalizing s m0 with
  | nil =>
    simpa [runWS, concatFrags, String.append_empty] using h
  | cons d ds ih =>
    have hstep : handleWS s (.text_delta (some i) d)
        = { s with messageMap := appendContent s.messageMap i (d.getD "") } := by
      simp [handleWS, hi, h]
    have h2 : findMsg (appendContent s.messageMap i (d.getD "")) i
        = some { m0 with content := m0.content ++ d.getD "" } := by
      rw [findMsg_appendContent, h]
      rfl
    have hrec := ih { s with messageMap := appendContent s.messageMap i (d.getD "") }
      { m0 with content := m0.content ++ d.getD "" } h2
    show findMsg (runWS (handleWS s (.text_delta (some i) d))
        (ds.map (fun d => WSMessage.text_delta (some i) d))).messageMap i = _
    rw [hstep, hrec]
    simp [concatFrags, String.append_assoc]

theorem findMsg_replaceContent (m : List Message) (i c : String) :
    findMsg (replaceContent m i c) i
      = (findMsg m i).map (fun e => { e with content := c }) := by
  induction m with
  | nil => rfl
  | cons e rest ih =>
    simp only [replaceContent, List.map_cons, findMsg, List.find?_cons] at *
    by_cases hid : (e.id == i) = true
    · simp [hid]
    · simp only [hid, Bool.false_eq_true, if_neg, cond_false]
      simpa [hid] using ih

theorem findMsg_map_idPreserving (m : List Message) (f : Message → Message)
    (hf : ∀ e, (f e).id = e.id) (i : String) :
    findMsg (m.map f) i = (findMsg m i).map f := by
  induction m with
  | nil => rfl
  | cons e rest ih =>
    simp only [List.map_cons, findMsg, List.find?_cons] at *
    rw [hf e]
    by_cases hid : (e.id == i) = true
    · simp [hid]
    · simp only [Bool.not_eq_true] at hid
      simp only [hid]
      exact ih

theorem findMsg_setMessagesView (m : List Message) (i : String) :
    findMsg (setMessagesView m) i
      = (findMsg m i).map (fun e =>
          if !(e.role == "user") && !(e.role == "status") then
            { e with role := "assistant" }
          else e) := by
  apply findMsg_map_idPreserving
  intro e
  by_cases hr : (!(e.role == "user") && !(e.role == "status")) = true <;> simp [hr]

/-! Claim theorems. -/

/-- C1: for every sequence of text_delta events sharing a truthy id,
delivered in arrival order to a state in which that id has not yet been
observed, the resulting content of the message with that id is exactly the
concatenation of the delta fragments in arrival order: the first fragment
creates the message (with role assistant), and each later fragment is
appended, never reordered or overwritten. -/
theorem text_delta_concat (s : ClientState) (i : String)
    (hi : (i == "") = false) (d0 : Option String) (ds : List (Option String))
    (h : findMsg s.messageMap i = none) :
    findMsg (snapshot (runWS s
        ((d0 :: ds).map (fun d => WSMessage.text_delta (some i) d)))) i
      = some ⟨i, "assistant", concatFrags (d0 :: ds)⟩ := by
  have hstep : handleWS s (.text_delta (some i) d0)
      = { s with messageMap := mapSet s.messageMap ⟨i, "assistant", d0.getD ""⟩ } := by
    simp [handleWS, hi, h]
  have h2 : findMsg (mapSet s.messageMap ⟨i, "assistant", d0.getD ""⟩) i
      = some ⟨i, "assistant", d0.getD ""⟩ :=
    findMsg_mapSet_self s.messageMap ⟨i, "assistant", d0.getD ""⟩
  have hrun : findMsg (runWS s
      ((d0 :: ds).map (fun d => WSMessage.text_delta (some i) d))).messageMap i
      = some ⟨i, "assistant", concatFrags (d0 :: ds)⟩ := by
    show findMsg (runWS (handleWS s (.text_delta (some i) d0))
        (ds.map (fun d => WSMessage.text_delta (some i) d))).messageMap i = _
    rw [hstep]
    rw [findMsg_runWS_deltas ds _ i ⟨i, "assistant", d0.getD ""⟩ hi h2]
    rfl
  unfold snapshot
  rw [findMsg_setMessagesView, hrun]
  rfl

/-- C1 witness: the theorem applied to the empty state, id `a`, and the
fragments `["he", "llo", absent]`. -/
theorem text_delta_concat_app :
    findMsg (snapshot (runWS ClientState.start
        (([some "he", some "llo", none] : List (Option String)).map
          (fun d => WSMessage.text_delta (some "a") d)))) "a"
      = some ⟨"a", "assistant", concatFrags [some "he", some "llo", none]⟩ :=
  text_delta_concat ClientState.start "a" (by decide) (some "he") [some "llo", none]
    (by decide)

/-- C3 counterexample: the claim says the in-flight user message is
correlated by the event's id, replaced exactly once, and never mutated
afterwards.  In the code the transcription case writes to
`currentUserMessage.current` whenever the event's id is truthy, without
comparing ids: here the user message has id `u1`, the first transcription
event carries the unrelated id `t1` yet replaces `u1`'s content, and a
second transcription event (id `t2`) mutates the message again after it
was supposedly final. -/
theorem transcription_not_immutable_cex :
    findMsg (runWS ClientState.start
      [WSMessage.control_speech_started "u1",
       WSMessage.transcription (some "t1") (some "what is the weather")]).messageMap "u1"
      = some ⟨"u1", "user", "what is the weather"⟩ ∧
    findMsg (runWS ClientState.start
      [WSMessage.control_speech_started "u1",
       WSMessage.transcription (some "t1") (some "what is the weather"),
       WSMessage.transcription (some "t2") (some "changed")]).messageMap "u1"
      = some ⟨"u1", "user", "changed"⟩ := by
  exact ⟨by decide, by decide⟩

/-- C3 amended: a transcription event with a truthy id replaces (never
appends to) the content of the message `currentUserMessage` points at —
the message created by the most recent speech-started event, selected by
that reference and not by the event's id — and leaves the reference and
every other message unchanged; a later transcription event before the next
speech-started event replaces the content again. -/
theorem transcription_replaces_current (s : ClientState)
    (id text : Option String) (h1 : truthyS id = true)
    (cur : String) (h2 : s.currentUserMessage = some cur)
    (m0 : Message) (h3 : findMsg s.messageMap cur = some m0) :
    findMsg (handleWS s (.transcription id text)).messageMap cur
      = some { m0 with content := text.getD "" } ∧
    (handleWS s (.transcription id text)).currentUserMessage = some cur ∧
    ∀ e ∈ (handleWS s (.transcription id text)).messageMap,
      ¬ e.id = cur → e ∈ s.messageMap := by
  refine ⟨?_, ?_, ?_⟩
  · simp only [handleWS, h2, h1, if_pos]
    rw [findMsg_replaceContent, h3]
    rfl
  · simp [handleWS, h2, h1]
  · intro e he hne
    simp only [handleWS, h2, h1, if_pos] at he
    rcases List.mem_map.mp he with ⟨x, hx, hxe⟩
    by_cases hxc : (x.id == cur) = true
    · rw [if_pos hxc] at hxe
      exact absurd (hxe ▸ beq_iff_eq.mp hxc) hne
    · rw [if_neg hxc] at hxe
      exact hxe ▸ hx

/-- C3 witness: the amended theorem applied after a speech-started event
created the user message `u1`, with a transcription event carrying the
unrelated id `t1`. -/
theorem transcription_replaces_current_app :
    findMsg (handleWS (runWS ClientState.start
        [WSMessage.control_speech_started "u1"])
        (.transcription (some "t1") (some "hello"))).messageMap "u1"
      = some ⟨"u1", "user", "hello"⟩ ∧
    (handleWS (runWS ClientState.start
        [WSMessage.control_speech_started "u1"])
        (.transcription (some "t1") (some "hello"))).currentUserMessage
      = some "u1" ∧
    ∀ e ∈ (handleWS (runWS ClientState.start
        [WSMessage.control_speech_started "u1"])
        (.transcription (some "t1") (some "hello"))).messageMap,
      ¬ e.id = "u1" →
        e ∈ (runWS ClientState.start
          [WSMessage.control_speech_started "u1"]).messageMap :=
  transcription_replaces_current
    (runWS ClientState.start [WSMessage.control_speech_started "u1"])
    (some "t1") (some "hello") (by decide) "u1" (by decide)
    ⟨"u1", "user", "..."⟩ (by decide)

/-- C5: a text frame whose payload is structurally invalid JSON, or parses
to an object with an unrecognized type, is logged and dropped by the
receive pump; the loop neither terminates nor disturbs the session, and
every subsequent frame is processed exactly as if the bad frame had never
arrived. -/
theorem malformed_frame_skipped (s : ClientState) (f : Frame)
    (h : malformedOrUnknown f = true) (pre post : List Frame) :
    receiveLoop s (pre ++ f :: post) = receiveLoop s (pre ++ post) := by
  unfold receiveLoop
  rw [List.foldl_append, List.foldl_append, List.foldl_cons]
  have hstep : receiveStep (pre.foldl receiveStep s) f = pre.foldl receiveStep s := by
    cases f with
    | text p =>
      cases p with
      | none => rfl
      | some m => cases m <;> first | rfl | simp [malformedOrUnknown] at h
    | binary d => simp [malformedOrUnknown] at h
  rw [hstep]

/-- C5 witness: a malformed frame between two valid delta frames leaves
the pump's final state identical to the run without it. -/
theorem malformed_frame_skipped_app :
    receiveLoop ClientState.start
      [Frame.text (some (WSMessage.text_delta (some "a") (some "he"))),
       Frame.text none,
       Frame.text (some (WSMessage.text_delta (some "a") (some "llo")))]
      = receiveLoop ClientState.start
          [Frame.text (some (WSMessage.text_delta (some "a") (some "he"))),
           Frame.text (some (WSMessage.text_delta (some "a") (some "llo")))] :=
  malformed_frame_skipped ClientState.start (Frame.text none) (by decide)
    [Frame.text (some (WSMessage.text_delta (some "a") (some "he")))]
    [Frame.text (some (WSMessage.text_delta (some "a") (some "llo")))]

/-- C6: handling a speech-started control event empties the audio
playback buffer (barge-in flush, performed inside the handler before any
later event is processed), stores a fresh pending user message with
placeholder content dots under the generated id, and points
`currentUserMessage` at it. -/
theorem speech_started_effect (s : ClientState) (newId : String) :
    (handleWS s (.control_speech_started newId)).playbackBuffer = [] ∧
    (handleWS s (.control_speech_started newId)).currentUserMessage = some newId ∧
    findMsg (handleWS s (.control_speech_started newId)).messageMap newId
      = some ⟨newId, "user", "..."⟩ := by
  refine ⟨rfl, rfl, ?_⟩
  show findMsg (mapSet s.messageMap ⟨newId, "user", "..."⟩) newId
      = some ⟨newId, "user", "..."⟩
  exact findMsg_mapSet_self s.messageMap ⟨newId, "user", "..."⟩

/-- C8: the snapshot presents each message at its position with role kept
when it is `user` or `status`, and coerced to `assistant` for any other
role value, leaving id and content untouched. -/
theorem role_normalization (s : ClientState) (k : Nat) (m : Message)
    (h : s.messageMap[k]? = some m) :
    (snapshot s)[k]? = some ⟨m.id,
      (if m.role = "user" ∨ m.role = "status" then m.role else "assistant"),
      m.content⟩ := by
  unfold snapshot setMessagesView
  rw [List.getElem?_map, h]
  rcases m with ⟨mid, mrole, mcontent⟩
  by_cases hu : mrole = "user"
  · subst hu
    simp
  · by_cases hs : mrole = "status"
    · subst hs
      simp
    · simp [hu, hs]

/-- C8 witness: a message whose role is the unexpected value `system` is
presented with role `assistant`, at the same position. -/
theorem role_normalization_app :
    (snapshot ⟨[⟨"x", "system", "hi"⟩], none, []⟩)[0]?
      = some ⟨"x",
          (if ("system" : String) = "user" ∨ ("system" : String) = "status"
            then "system" else "assistant"),
          "hi"⟩ :=
  role_normalization ⟨[⟨"x", "system", "hi"⟩], none, []⟩ 0 ⟨"x", "system", "hi"⟩
    (by decide)

/-- C4: the snapshot always contains at most one message per id (its key
sequence has no duplicates), and over any event sequence free of connected
control events the snapshot's ids are exactly the first-observation order
of the ids, unchanged by later mutations (delta appends, transcription
replacements): an already-observed id never moves, a new id is appended at
the end. -/
theorem snapshot_insertion_order (s : ClientState) (es : List WSMessage)
    (h : (ids s.messageMap).Nodup) :
    ((snapshot (runWS s es)).map (fun e => e.id)).Nodup ∧
    (es.all notConnected = true →
      (snapshot (runWS s es)).map (fun e => e.id)
        = es.foldl obsStep (ids s.messageMap)) := by
  have hv : (snapshot (runWS s es)).map (fun e => e.id)
      = ids (runWS s es).messageMap := ids_setMessagesView _
  constructor
  · rw [hv]
    exact nodup_ids_runWS es s h
  · intro hall
    rw [hv]
    exact ids_runWS_notConnected es s hall

/-- C4 witness: from the empty state, a trace interleaving deltas for two
ids, a speech-started event and a transcription yields duplicate-free
snapshot ids in first-observation order. -/
theorem snapshot_insertion_order_app :
    ((snapshot (runWS ClientState.start
        [WSMessage.text_delta (some "a") (some "x"),
         WSMessage.control_speech_started "u",
         WSMessage.text_delta (some "b") (some "y"),
         WSMessage.transcription (some "t") (some "final"),
         WSMessage.text_delta (some "a") (some "z")])).map (fun e => e.id)).Nodup ∧
    (snapshot (runWS ClientState.start
        [WSMessage.text_delta (some "a") (some "x"),
         WSMessage.control_speech_started "u",
         WSMessage.text_delta (some "b") (some "y"),
         WSMessage.transcription (some "t") (some "final"),
         WSMessage.text_delta (some "a") (some "z")])).map (fun e => e.id)
      = [WSMessage.text_delta (some "a") (some "x"),
         WSMessage.control_speech_started "u",
         WSMessage.text_delta (some "b") (some "y"),
         WSMessage.transcription (some "t") (some "final"),
         WSMessage.text_delta (some "a") (some "z")].foldl obsStep
          (ids ClientState.start.messageMap) :=
  ⟨(snapshot_insertion_order ClientState.start
      [WSMessage.text_delta (some "a") (some "x"),
       WSMessage.control_speech_started "u",
       WSMessage.text_delta (some "b") (some "y"),
       WSMessage.transcription (some "t") (some "final"),
       WSMessage.text_delta (some "a") (some "z")] (by decide)).1,
   (snapshot_insertion_order ClientState.start
      [WSMessage.text_delta (some "a") (some "x"),
       WSMessage.control_speech_started "u",
       WSMessage.text_delta (some "b") (some "y"),
       WSMessage.transcription (some "t") (some "final"),
       WSMessage.text_delta (some "a") (some "z")] (by decide)).2 (by decide)⟩

/-- C2 counterexample: the claim says no chunk enqueued before Clear() is
ever delivered to the output device.  In the source, `ClearPlayback` only
calls `_waveProvider.ClearBuffer()`; the `_audioQueue` concurrent queue is
not cleared, so a chunk enqueued before the call but not yet transferred
by the `ProcessAudioQueue` loop is transferred afterwards and played: here
the chunk is enqueued, Clear runs, and the chunk still reaches the
device. -/
theorem clear_pre_enqueued_still_played_cex :
    ((((SpeakerOutput.start.enqueueForPlayback [1]).clearPlayback).processAudioStep).deviceStep).played
      = [[1]] := by decide

/-- C2 amended: Clear() discards exactly the audio already transferred to
the device-side wave buffer; chunks still sitting in the queue at the time
of the call survive it and are later transferred and played, and chunks
enqueued after the call are appended behind them unaffected. -/
theorem clear_wave_buffer_only (s : SpeakerOutput) (c : List Int)
    (rest : List (List Int)) (h : s.audioQueue = c :: rest) :
    (s.clearPlayback).audioQueue = c :: rest ∧
    (s.clearPlayback).waveBuffer = [] ∧
    (s.clearPlayback).played = s.played ∧
    (((s.clearPlayback).processAudioStep).deviceStep).played = s.played ++ [c] ∧
    (∀ d, ((s.clearPlayback).enqueueForPlayback d).audioQueue = (c :: rest) ++ [d]) := by
  refine ⟨?_, rfl, rfl, ?_, ?_⟩
  · simp [SpeakerOutput.clearPlayback, h]
  · simp [SpeakerOutput.clearPlayback, SpeakerOutput.processAudioStep,
      SpeakerOutput.deviceStep, h]
  · intro d
    simp [SpeakerOutput.clearPlayback, SpeakerOutput.enqueueForPlayback, h]

/-- C2 witness: the amended theorem applied to the state holding one
pending queued chunk. -/
theorem clear_wave_buffer_only_app :
    ((SpeakerOutput.start.enqueueForPlayback [1]).clearPlayback).audioQueue = [[1]] ∧
    ((SpeakerOutput.start.enqueueForPlayback [1]).clearPlayback).waveBuffer = [] ∧
    ((SpeakerOutput.start.enqueueForPlayback [1]).clearPlayback).played
      = (SpeakerOutput.start.enqueueForPlayback [1]).played ∧
    ((((SpeakerOutput.start.enqueueForPlayback [1]).clearPlayback).processAudioStep).deviceStep).played
      = (SpeakerOutput.start.enqueueForPlayback [1]).played ++ [[1]] ∧
    (∀ d, (((SpeakerOutput.start.enqueueForPlayback [1]).clearPlayback).enqueueForPlayback d).audioQueue
      = [[1]] ++ [d]) :=
  clear_wave_buffer_only (SpeakerOutput.start.enqueueForPlayback [1]) [1] []
    (by decide)

theorem mapSet_of_not_mem (m : List Message) (msg : Message)
    (h : findMsg m msg.id = none) : mapSet m msg = m ++ [msg] := by
  unfold mapSet
  have hany : m.any (fun e => e.id == msg.id) = false := by
    apply Bool.eq_false_iff.mpr
    intro hc
    exact (findMsg_eq_none_iff _ _).mp h (mem_ids_of_any _ _ hc)
  rw [hany]
  simp

/-- C7 counterexample: the claim says handling every Connected control
event inserts a greeting and removes the connecting status messages.  The
handler only acts when the payload carries a non-empty `greeting` field: a
connected event without a greeting leaves the state — including the
still-pending connecting status message — completely unchanged, inserting
nothing. -/
theorem connected_without_greeting_cex :
    handleWS ⟨[⟨"s1", "status", "Connecting..."⟩], none, []⟩
        (.control_connected none "s2")
      = ⟨[⟨"s1", "status", "Connecting..."⟩], none, []⟩ := by decide

/-- C7 amended: handling a Connected control event whose greeting field is
non-empty inserts exactly one greeting message (under a fresh generated
id, appended at the end) and removes exactly those existing messages whose
role is status and whose content contains the connecting marker; every
other message, the current-user-message reference and the playback buffer
are left unchanged.  A Connected event with an absent or empty greeting
changes nothing. -/
theorem connected_with_greeting (s : ClientState) (g : String)
    (hg : (g == "") = false) (newId : String)
    (hfresh : findMsg s.messageMap newId = none)
    (hnodup : (ids s.messageMap).Nodup) :
    (handleWS s (.control_connected (some g) newId)).messageMap
      = s.messageMap.filter (fun e => !(isConnectingStatus e))
          ++ [⟨newId, "assistant", connectedGreeting⟩] ∧
    (handleWS s (.control_connected (some g) newId)).currentUserMessage
      = s.currentUserMessage ∧
    (handleWS s (.control_connected (some g) newId)).playbackBuffer
      = s.playbackBuffer := by
  have ht : truthyS (some g) = true := by simp [truthyS, hg]
  refine ⟨?_, by simp [handleWS, ht], by simp [handleWS, ht]⟩
  simp only [handleWS, ht, if_pos]
  rw [mapSet_of_not_mem s.messageMap ⟨newId, "assistant", connectedGreeting⟩ hfresh]
  have hnotmem : newId ∉ ids s.messageMap := (findMsg_eq_none_iff _ _).mp hfresh
  have hids : ids (s.messageMap ++ [⟨newId, "assistant", connectedGreeting⟩])
      = ids s.messageMap ++ [newId] := by
    simp [ids]
  have hnodup2 : (ids (s.messageMap ++ [⟨newId, "assistant", connectedGreeting⟩])).Nodup := by
    rw [hids]
    simp [List.nodup_append, hnodup, hnotmem]
  rw [removeConnecting_eq_filter _ hnodup2, List.filter_append]
  congr 1

/-- C7 witness: the amended theorem applied to a state holding one
connecting status message and one ordinary assistant message: the status
message is removed, the assistant message is kept, the greeting is
appended. -/
theorem connected_with_greeting_app :
    (handleWS ⟨[⟨"s1", "status", "Connecting..."⟩, ⟨"a", "assistant", "hi"⟩], some "u", [[7]]⟩
        (.control_connected (some "welcome") "s2")).messageMap
      = [⟨"s1", "status", "Connecting..."⟩, ⟨"a", "assistant", "hi"⟩].filter
          (fun e => !(isConnectingStatus e))
          ++ [⟨"s2", "assistant", connectedGreeting⟩] ∧
    (handleWS ⟨[⟨"s1", "status", "Connecting..."⟩, ⟨"a", "assistant", "hi"⟩], some "u", [[7]]⟩
        (.control_connected (some "welcome") "s2")).currentUserMessage
      = some "u" ∧
    (handleWS ⟨[⟨"s1", "status", "Connecting..."⟩, ⟨"a", "assistant", "hi"⟩], some "u", [[7]]⟩
        (.control_connected (some "welcome") "s2")).playbackBuffer
      = [[7]] :=
  connected_with_greeting
    ⟨[⟨"s1", "status", "Connecting..."⟩, ⟨"a", "assistant", "hi"⟩], some "u", [[7]]⟩
    "welcome" (by decide) "s2" (by decide) (by decide)

/-- C10: when a connected control message is handled, nothing at all
happens unless the greeting field is present and non-empty; and when it
is, the message stored under the generated id has the fixed greeting
content — independent of the greeting payload's own text — with role
assistant. -/
theorem connected_greeting_content (s : ClientState) (g : Option String)
    (newId : String) :
    (truthyS g = false → handleWS s (.control_connected g newId) = s) ∧
    (truthyS g = true →
      findMsg (handleWS s (.control_connected g newId)).messageMap newId
        = some ⟨newId, "assistant", connectedGreeting⟩) := by
  constructor
  · intro hgf
    simp [handleWS, hgf]
  · intro hgt
    simp only [handleWS, hgt, if_pos]
    rw [removeConnecting_eq_deleteFilter]
    rw [findMsg_filter]
    · exact findMsg_mapSet_self s.messageMap ⟨newId, "assistant", connectedGreeting⟩
    · intro e he hid
      simp only [Bool.not_eq_true']
      apply Bool.eq_false_iff.mpr
      intro hc
      rcases List.any_eq_true.mp hc with ⟨k, hk, hek⟩
      rcases List.mem_map.mp hk with ⟨x, hxf, hxk⟩
      rcases List.mem_filter.mp hxf with ⟨hxm, hxp⟩
      have hxid : x.id = newId := hxk.trans ((beq_iff_eq.mp hek).symm.trans hid)
      have hx2 : x = ⟨newId, "assistant", connectedGreeting⟩ :=
        mem_mapSet_id _ _ _ hxm hxid
      rw [hx2] at hxp
      simp [isConnectingStatus] at hxp

/-- C10 witness: the theorem applied with the greeting payload text
`hi there`: the stored content is the fixed greeting string, not the
payload text. -/
theorem connected_greeting_content_app :
    findMsg (handleWS ClientState.start
        (.control_connected (some "hi there") "s1")).messageMap "s1"
      = some ⟨"s1", "assistant", connectedGreeting⟩ :=
  (connected_greeting_content ClientState.start (some "hi there") "s1").2 (by decide)
